import Mathlib

/-!
# TinyECS — a verification development

A shallow embedding, in Lean 4, of the entity-component storage engine
implemented in `src/tinyecs.h` / `src/tinyecs.cc`: the entity-id packing
scheme, the per-archetype cemetery (FIFO free list of dead short ids),
the archetype entity life cycle (immediate and delayed creation and
killing), the world-level routing of lifecycle operations, the
signature-based matcher, the filter pipeline and the cacher maintenance
callbacks, and the field-proxy assignment path.

Machine integers are modelled as `Nat` with explicit `% 2^32` where the
C++ source relies on fixed-width wrap-around.  C++ containers are
modelled as follows: `std::deque` as `List` (front = head),
`std::set` / key sets of maps as `Finset Nat`, the multimap content of a
field index as `Multiset`, a `std::bitset` block of the cemetery as
`Finset Nat` of the set bit positions.  Fallible paths return `Option`
or `Except`; `none` models undefined behaviour (a null-pointer
dereference) of the corresponding C++ code path.
-/

namespace TinyECS

/-! ## Entity-id packing (src/tinyecs.h, `Pack` / `UnpackX` / `UnpackY`)

Layout of an entity id:
`32 bits = [ archetype id (13 bits) ][ short entity id (19 bits) ]`.
The C++ computes in (promoted) 32-bit integers and returns `EntityId`
(`uint32_t`); the `% 2^32` makes that truncation explicit. -/

/-- `Pack(x, y) = ((x & 0x1fff) << 19) | (y & 0x7ffff)`, truncated to 32 bits. -/
def Pack (x y : Nat) : Nat :=
  (((x &&& 0x1fff) <<< 19) ||| (y &&& 0x7ffff)) % 2 ^ 32

/-- `UnpackX(eid) = (eid >> 19) & 0x1fff` — the archetype id. -/
def UnpackX (eid : Nat) : Nat :=
  (eid >>> 19) &&& 0x1fff

/-- `UnpackY(eid) = eid & 0x7ffff` — the short entity id. -/
def UnpackY (eid : Nat) : Nat :=
  eid &&& 0x7ffff

/-! ## Cemetery (src/tinyecs.h and src/tinyecs.cc, class `Cemetery`)

`q` models the `std::deque<EntityShortId>` (front = list head); `blocks`
models the vector of 1024-bit bitsets, each block as the `Finset` of its
set bit positions; `bound` is the redundant `blocks.size() * 1024`. -/

def NumRowsPerBlock : Nat := 1024

structure Cemetery where
  q : List Nat
  blocks : List (Finset Nat)
  bound : Nat
  deriving DecidableEq

/-- The default-constructed cemetery. -/
def Cemetery.empty : Cemetery := ⟨[], [], 0⟩

/-- `Size() = q.size()`. -/
def Cemetery.Size (c : Cemetery) : Nat := c.q.length

/-- `NumBlocks() = blocks.size()`. -/
def Cemetery.NumBlocks (c : Cemetery) : Nat := c.blocks.length

/-- `Contains(e)`: false if `e >= bound`, else test bit `e % 1024` of block `e / 1024`. -/
def Cemetery.Contains (c : Cemetery) (e : Nat) : Bool :=
  if e ≥ c.bound then false
  else decide (e % 1024 ∈ c.blocks.getD (e / 1024) ∅)

/-- `Reserve(n)`: push fresh zero blocks (adding 1024 to `bound` each) while `n > blocks.size()`. -/
def Cemetery.Reserve (c : Cemetery) (n : Nat) : Cemetery :=
  { c with
    blocks := c.blocks ++ List.replicate (n - c.blocks.length) ∅
    bound := c.bound + 1024 * (n - c.blocks.length) }

/-- `Add(e)`: reserve at least `e / 1024 + 1` blocks, set the bit, push `e` on the deque. -/
def Cemetery.Add (c : Cemetery) (e : Nat) : Cemetery :=
  let i := e / 1024
  let j := e % 1024
  let c' := c.Reserve (i + 1)
  { c' with
    blocks := c'.blocks.set i (insert j (c'.blocks.getD i ∅))
    q := c'.q ++ [e] }

/-- `Pop()`: pop the deque's front, clear its bit.  The source demands a
non-empty cemetery in advance; the `[]` branch is unreachable at call sites. -/
def Cemetery.Pop (c : Cemetery) : Nat × Cemetery :=
  match c.q with
  | [] => (0, c)
  | e :: rest =>
    let i := e / 1024
    let j := e % 1024
    (e, { c with q := rest, blocks := c.blocks.set i ((c.blocks.getD i ∅).erase j) })

/-- Structural invariant maintained by every operation: `bound` is the
redundant product `blocks.size() * 1024`. -/
def Cemetery.WF (c : Cemetery) : Prop := c.bound = 1024 * c.blocks.length

/-- A sequence of `Add` calls, first call first. -/
def Cemetery.addList (c : Cemetery) (es : List Nat) : Cemetery :=
  es.foldl Cemetery.Add c

/-! ## Archetype entity life cycle (src/tinyecs.h/.cc, class `IArchetype`)

The lifecycle-relevant state of an archetype: `id`, the short-id cursor
`ecursor`, the ordered alive set, the cemetery, and the key sets of the
`toBorn` / `toKill` maps.  Component data rows, column maps and blocks
carry no lifecycle information and are not part of this model; the
`EntityReference` at a row head is determined by `(id, e)` and is
reconstructed where needed.  A before-kill `Accessor` is modelled by the
observable event it produces when invoked: the entity id is appended to
a trace (matching the order-recording callbacks of the repository's
tests).  `DelayedKill` with a null callback pointer dereferences that
null pointer in the source (`const auto& callback = *beforeKillPtr`);
the model returns `none` for that undefined behaviour. -/

structure ArchState where
  id : Nat
  ecursor : Nat
  alives : Finset Nat
  cemetery : Cemetery
  toBorn : Finset Nat
  toKill : Finset Nat
  deriving DecidableEq

/-- A freshly constructed archetype with the given id. -/
def ArchState.fresh (id : Nat) : ArchState :=
  ⟨id, 0, ∅, Cemetery.empty, ∅, ∅⟩

/-- `IsAlive(e) = e < ecursor && !cemetery.Contains(e) && !toBorn.contains(e)`. -/
def ArchState.IsAlive (st : ArchState) (e : Nat) : Bool :=
  decide (e < st.ecursor) && !st.cemetery.Contains e && !decide (e ∈ st.toBorn)

/-- `NumEntities() = ecursor - cemetery.Size() - toBorn.size()` (`size_t`
subtraction; the code comments assume `cemetery + toBorn ≤ ecursor`). -/
def ArchState.NumEntities (st : ArchState) : Nat :=
  st.ecursor - st.cemetery.Size - st.toBorn.card

/-- `AllocateForNewEntity`: pop the cemetery front if non-empty, else
take `ecursor++` (allocating a block on need; blocks are not modelled). -/
def ArchState.AllocateForNewEntity (st : ArchState) : Nat × ArchState :=
  if st.cemetery.Size ≠ 0 then
    let p := st.cemetery.Pop
    (p.1, { st with cemetery := p.2 })
  else
    (st.ecursor, { st with ecursor := st.ecursor + 1 })

/-- `NewEntity`: allocate a seat and run `DoNewEntity` (insert into the
alive set, run the initializer, fire `AfterEntityCreated`). -/
def ArchState.NewEntity (st : ArchState) : ArchState × Nat :=
  let (e, st') := st.AllocateForNewEntity
  ({ st' with alives := insert e st'.alives }, e)

/-- `DelayedNewEntity`: allocate a seat and record it in the `toBorn`
map; the entity is not in the alive set. -/
def ArchState.DelayedNewEntity (st : ArchState) : ArchState × Nat :=
  let (e, st') := st.AllocateForNewEntity
  ({ st' with toBorn := insert e st'.toBorn }, e)

/-- `ApplyDelayedNewEntity(e)`: nothing if `e` is not in `toBorn`; else
run `DoNewEntity` (insert into the alive set) and erase from `toBorn`. -/
def ArchState.ApplyDelayedNewEntity (st : ArchState) (e : Nat) : ArchState :=
  if e ∈ st.toBorn then
    { st with alives := insert e st.alives, toBorn := st.toBorn.erase e }
  else st

/-- `Kill(e, cb)`: nothing if `e ≥ ecursor` or already in the cemetery;
else run the callback if provided, fire hooks and destructors, add to
the cemetery and erase from the alive set.  (Note the source erases
neither `toBorn` nor `toKill` here.)  The returned trace holds the id of
the entity whose before-kill callback ran, if any. -/
def ArchState.Kill (st : ArchState) (e : Nat) (hasCb : Bool) : ArchState × List Nat :=
  if e ≥ st.ecursor || st.cemetery.Contains e then (st, [])
  else
    ({ st with cemetery := st.cemetery.Add e, alives := st.alives.erase e },
      if hasCb then [Pack st.id e] else [])

/-- `DelayedKill(e, beforeKillPtr)`: nothing if the entity is not alive.
If it is alive the source unconditionally dereferences `beforeKillPtr`
to copy it into the `toKill` map — `none` (a null pointer, as passed by
`World::DelayedKill(eid)` and `EntityReference::DelayedKill()`) is
undefined behaviour, modelled as `none`.  Otherwise the callback is
stored (map insert: no-op on an existing key) and the entity id is
handed to `World::AddDelayedKillEntity`. -/
def ArchState.DelayedKill (st : ArchState) (e : Nat) (cb : Option Unit) :
    Option (ArchState × List Nat) :=
  if st.IsAlive e then
    match cb with
    | none => none
    | some _ => some ({ st with toKill := insert e st.toKill }, [Pack st.id e])
  else some (st, [])

/-- `ApplyDelayedKill(e)`: nothing if `e` is not in the `toKill` map;
else `Kill(e, storedCb)` and erase from `toKill`. -/
def ArchState.ApplyDelayedKill (st : ArchState) (e : Nat) : ArchState × List Nat :=
  if e ∈ st.toKill then
    let (st', tr) := st.Kill e true
    ({ st' with toKill := st'.toKill.erase e }, tr)
  else (st, [])

/-! ## World (src/tinyecs.h/.cc, class `World`)

Archetypes live in insertion order (index = archetype id); `toBorn` and
`toKill` are the world-level FIFO queues of packed entity ids. -/

structure WorldState where
  archetypes : List ArchState
  toBorn : List Nat
  toKill : List Nat
  deriving DecidableEq

def WorldState.empty : WorldState := ⟨[], [], []⟩

/-- `NewArchetype`: append an archetype whose id is the current count. -/
def WorldState.NewArchetype (w : WorldState) : WorldState :=
  { w with archetypes := w.archetypes ++ [ArchState.fresh w.archetypes.length] }

/-- `World::IsAlive(eid)`: false for an archetype id outside the table. -/
def WorldState.IsAlive (w : WorldState) (eid : Nat) : Bool :=
  if UnpackX eid ≥ w.archetypes.length then false
  else ((w.archetypes.getD (UnpackX eid) (ArchState.fresh 0)).IsAlive (UnpackY eid))

/-- `World::NewEntity` on archetype `aid` (a call on the archetype
reference returned by `NewArchetype`); returns the packed entity id. -/
def WorldState.NewEntity (w : WorldState) (aid : Nat) : WorldState × Nat :=
  let st := w.archetypes.getD aid (ArchState.fresh 0)
  let (st', e) := st.NewEntity
  ({ w with archetypes := w.archetypes.set aid st' }, Pack aid e)

/-- `Archetype::DelayedNewEntity` on archetype `aid`; the world records
the packed id on its `toBorn` queue (`AddDelayedNewEntity`). -/
def WorldState.DelayedNewEntity (w : WorldState) (aid : Nat) : WorldState × Nat :=
  let st := w.archetypes.getD aid (ArchState.fresh 0)
  let (st', e) := st.DelayedNewEntity
  ({ w with archetypes := w.archetypes.set aid st', toBorn := w.toBorn ++ [Pack aid e] },
    Pack aid e)

/-- `World::Kill(eid)`: nothing for an archetype id outside the table;
else the archetype's `Kill` with no callback. -/
def WorldState.Kill (w : WorldState) (eid : Nat) : WorldState :=
  if UnpackX eid ≥ w.archetypes.length then w
  else
    let st := w.archetypes.getD (UnpackX eid) (ArchState.fresh 0)
    let (st', _) := st.Kill (UnpackY eid) false
    { w with archetypes := w.archetypes.set (UnpackX eid) st' }

/-- `World::DelayedKill(eid)` / `World::DelayedKill(eid, beforeKilled)`:
nothing for an archetype id outside the table; else the archetype's
`DelayedKill`, whose enqueue request is appended to the world `toKill`
queue.  `cb = none` models the overload without a callback (it passes
`nullptr`). -/
def WorldState.DelayedKill (w : WorldState) (eid : Nat) (cb : Option Unit) :
    Option WorldState :=
  if UnpackX eid ≥ w.archetypes.length then some w
  else
    let st := w.archetypes.getD (UnpackX eid) (ArchState.fresh 0)
    match st.DelayedKill (UnpackY eid) cb with
    | none => none
    | some (st', enq) =>
        some { w with archetypes := w.archetypes.set (UnpackX eid) st',
                      toKill := w.toKill ++ enq }

/-- The loop body of `World::ApplyDelayedKills`: pop the queue front,
skip archetype ids outside the table, delegate to `ApplyDelayedKill`.
Returns the updated archetype table and the trace of before-kill
callback invocations. -/
def applyDelayedKillsAux : List Nat → List ArchState → List ArchState × List Nat
  | [], archs => (archs, [])
  | eid :: rest, archs =>
    if UnpackX eid < archs.length then
      let (st', tr) := (archs.getD (UnpackX eid) (ArchState.fresh 0)).ApplyDelayedKill (UnpackY eid)
      let (archs', tr') := applyDelayedKillsAux rest (archs.set (UnpackX eid) st')
      (archs', tr ++ tr')
    else applyDelayedKillsAux rest archs

/-- `World::ApplyDelayedKills()`. -/
def WorldState.ApplyDelayedKills (w : WorldState) : WorldState × List Nat :=
  let (archs, tr) := applyDelayedKillsAux w.toKill w.archetypes
  ({ w with archetypes := archs, toKill := [] }, tr)

/-- The loop body of `World::ApplyDelayedNewEntities`. -/
def applyDelayedNewAux : List Nat → List ArchState → List ArchState
  | [], archs => archs
  | eid :: rest, archs =>
    if UnpackX eid < archs.length then
      let st' := (archs.getD (UnpackX eid) (ArchState.fresh 0)).ApplyDelayedNewEntity (UnpackY eid)
      applyDelayedNewAux rest (archs.set (UnpackX eid) st')
    else applyDelayedNewAux rest archs

/-- `World::ApplyDelayedNewEntities()`. -/
def WorldState.ApplyDelayedNewEntities (w : WorldState) : WorldState :=
  { w with archetypes := applyDelayedNewAux w.toBorn w.archetypes, toBorn := [] }

/-! ## EntityReference and checked lookup (src/tinyecs.h `EntityReference`,
src/tinyecs.cc `World::IsAlive` / `World::Get` / `IArchetype::Get`)

An `EntityReference` is `{a, data, id}`; `data` is determined by
`(a, UnpackY id)` so the model keeps `{a, id}`, with `none` for a null
archetype pointer (the static `NullEntityReference`). -/

structure EntityRef where
  arch : Option Nat
  id : Nat
  deriving DecidableEq

def NullEntityReference : EntityRef := ⟨none, 0⟩

/-- `EntityReference::IsAlive() = a != nullptr && a->IsAlive(UnpackY(id))`. -/
def WorldState.RefIsAlive (w : WorldState) (r : EntityRef) : Bool :=
  match r.arch with
  | none => false
  | some aid => (w.archetypes.getD aid (ArchState.fresh 0)).IsAlive (UnpackY r.id)

/-- `IArchetype::Get(e)`: `NullEntityReference` unless alive, else the
reference constructed at the row head — `EntityReference(this, data, Pack(id, e))`. -/
def ArchState.Get (st : ArchState) (e : Nat) : EntityRef :=
  if st.IsAlive e then ⟨some st.id, Pack st.id e⟩ else NullEntityReference

/-- `World::Get(eid)`: `NullEntityReference` for an archetype id outside
the table, else delegate to the archetype. -/
def WorldState.Get (w : WorldState) (eid : Nat) : EntityRef :=
  if UnpackX eid ≥ w.archetypes.length then NullEntityReference
  else (w.archetypes.getD (UnpackX eid) (ArchState.fresh 0)).Get (UnpackY eid)

/-- Archetype ids equal table positions (guaranteed by `World::NewArchetype`). -/
def WorldState.WF (w : WorldState) : Prop :=
  ∀ i < w.archetypes.length, (w.archetypes.getD i (ArchState.fresh 0)).id = i

instance (w : WorldState) : Decidable w.WF := by
  unfold WorldState.WF
  infer_instance

/-! ## FIFO reuse of dead short ids (C7) -/

/-- Repeated `NewEntity` calls; returns the final state and the short ids
in creation order. -/
def ArchState.newMany : ArchState → Nat → ArchState × List Nat
  | st, 0 => (st, [])
  | st, n + 1 =>
    let p := st.NewEntity
    let r := p.1.newMany n
    (r.1, p.2 :: r.2)

/-- `Kill` each short id of a list in order (no callbacks). -/
def ArchState.killList (st : ArchState) (ks : List Nat) : ArchState :=
  ks.foldl (fun s k => (s.Kill k false).1) st

/-- State of a fresh archetype after `n` immediate creations. -/
def ArchState.afterNew (a n : Nat) : ArchState :=
  ⟨a, n, Finset.range n, Cemetery.empty, ∅, ∅⟩

/-- Invariant of a fully-created archetype after killing the (distinct)
short ids in `killed`, in that order. -/
structure KillInv (a n : Nat) (killed : List Nat) (st : ArchState) : Prop where
  hid : st.id = a
  hcur : st.ecursor = n
  hq : st.cemetery.q = killed
  hWF : st.cemetery.WF
  hcont : ∀ x, st.cemetery.Contains x = decide (x ∈ killed)
  halives : st.alives = Finset.range n \ killed.toFinset
  htb : st.toBorn = ∅
  htk : st.toKill = ∅

/-! ## Matcher (src/tinyecs.h/.cc, class `Matcher`)

`all` and each `b[c]` are `std::bitset<4096>`; a bitset is modelled as
the `Finset` of its set bit positions.  A component `Signature`
(`std::bitset<128>`) is a `Finset (Fin 128)`. -/

def MaxNumComponents : Nat := 128

def MaxNumArchetypesPerWorld : Nat := 4096

structure Matcher where
  all : Finset Nat
  b : Fin 128 → Finset Nat

def Matcher.init : Matcher := ⟨∅, fun _ => ∅⟩

/-- `PutArchetypeId(signature, aid)`: `all[aid] = 1`, and for each
component `i` of the signature, `b[i].set(aid)`. -/
def Matcher.PutArchetypeId (m : Matcher) (signature : Finset (Fin 128)) (aid : Nat) : Matcher :=
  { all := insert aid m.all
    b := fun i => if i ∈ signature then insert aid (m.b i) else m.b i }

inductive MatchRelation
  | ALL
  | ANY
  | NONE
  deriving DecidableEq

/-- `MatchAll`: `ans = all; for i: if signature[i] then ans &= b[i]`. -/
def Matcher.MatchAll (m : Matcher) (signature : Finset (Fin 128)) : Finset Nat :=
  (List.finRange 128).foldl (fun ans i => if i ∈ signature then ans ∩ m.b i else ans) m.all

/-- `MatchAny`: `ans = 0; for i: if signature[i] then ans |= b[i]`. -/
def Matcher.MatchAny (m : Matcher) (signature : Finset (Fin 128)) : Finset Nat :=
  (List.finRange 128).foldl (fun ans i => if i ∈ signature then ans ∪ m.b i else ans) ∅

/-- `MatchNone`: `all & ~MatchAny(signature)`. -/
def Matcher.MatchNone (m : Matcher) (signature : Finset (Fin 128)) : Finset Nat :=
  m.all \ m.MatchAny signature

/-- `Match(relation, signature)`, collecting the result bits `i < 4096`
into a set of archetype ids; for `ANY` an empty signature matches all. -/
def Matcher.Match (m : Matcher) (relation : MatchRelation) (signature : Finset (Fin 128)) :
    Finset Nat :=
  let ans : Finset Nat :=
    match relation with
    | .ALL => m.MatchAll signature
    | .ANY => if signature = ∅ then m.all else m.MatchAny signature
    | .NONE => m.MatchNone signature
  ans.filter (· < 4096)

/-- Register a list of signatures with consecutive archetype ids starting
at `k` (each `World::NewArchetype` calls `PutArchetypeId` with
`id = archetypes.size()`). -/
def Matcher.putList (m : Matcher) (k : Nat) : List (Finset (Fin 128)) → Matcher
  | [] => m
  | s :: rest => (m.PutArchetypeId s k).putList (k + 1) rest

/-- The matcher of a world whose archetypes have the given signatures. -/
def mkMatcher (sigs : List (Finset (Fin 128))) : Matcher :=
  Matcher.init.putList 0 sigs

/-! ## Filters and cacher maintenance callbacks (src/tinyecs.cc:
`applyFiltersFrom` / `testFiltersSingleEntityId`,
`ICacher::SetupCallbacksWatchingEntities`,
`ICacher::SetupCallbacksWatchingIndexes`)

A filter is `{index, op, rhs}`; executing it enumerates the matching
entity ids of its index through a callback that may stop the iteration.
The model keeps the index-pointer identity and the enumeration a filter
produces. -/

structure FilterModel where
  idxPtr : Nat
  enum : List Nat

/-- The collector callback of `applyFiltersFrom`: for each enumerated
`eid`, if `ans.contains(eid)` insert into `tmp`; stop as soon as
`tmp.size == ans.size`. -/
def runFilterAux (ans : Finset Nat) : List Nat → Finset Nat → Finset Nat
  | [], tmp => tmp
  | e :: rest, tmp =>
    let tmp' := if e ∈ ans then insert e tmp else tmp
    if tmp'.card = ans.card then tmp' else runFilterAux ans rest tmp'

/-- One iteration of the `applyFiltersFrom` loop body:
`filters[i]->Execute(cb); ans.swap(tmp)`. -/
def FilterModel.run (f : FilterModel) (ans : Finset Nat) : Finset Nat :=
  runFilterAux ans f.enum ∅

/-- `applyFiltersFrom(filters, ans, start)` (the loop runs while
`i < filters.size() && ans.size()`); here over the filter list tail. -/
def applyFiltersFrom (ans : Finset Nat) : List FilterModel → Finset Nat
  | [] => ans
  | f :: rest => if ans.card ≠ 0 then applyFiltersFrom (f.run ans) rest else ans

/-- `testFiltersSingleEntityId(filters, eid)`: run all filters on the
singleton set `{eid}`; true iff the result is non-empty. -/
def testFiltersSingleEntityId (filters : List FilterModel) (eid : Nat) : Bool :=
  (applyFiltersFrom {eid} filters).card ≠ 0

/-- The cacher's `onEntityCreated` callback (registered on each matched
archetype): skip when filters are present and the entity fails them,
else insert into the cache. -/
def cacherOnEntityCreated (filters : List FilterModel) (cache : Finset Nat) (eid : Nat) :
    Finset Nat :=
  if filters.length ≠ 0 ∧ testFiltersSingleEntityId filters eid = false then cache
  else insert eid cache

/-- The cacher's `onEntityRemoved` callback (registered on each matched
archetype): erase unconditionally. -/
def cacherOnEntityRemoved (cache : Finset Nat) (eid : Nat) : Finset Nat :=
  cache.erase eid

/-- The cacher's `onIndexUpdated` callback (registered once per distinct
index referenced by a filter): ignore entities of unmatched archetypes;
otherwise re-test the *entire* filter list and insert or erase. -/
def cacherOnIndexUpdated (matched : Finset Nat) (filters : List FilterModel)
    (cache : Finset Nat) (eid : Nat) : Finset Nat :=
  if UnpackX eid ∉ matched then cache
  else if testFiltersSingleEntityId filters eid then insert eid cache
  else cache.erase eid

/-! ## Field proxy assignment (src/tinyecs.h, `FieldProxyBase::Set` and
`MapBasedFieldIndex::Update`)

The index multimap is a `Multiset` of `(value, entity_id)` entries; an
iterator is identified by the entry it designates, `none` standing for
`end()`.  `bound` models `__index != nullptr`. -/

inductive TErr
  | UnboundFieldIndex
  deriving DecidableEq

structure FieldIndexState (V : Type) where
  m : Multiset (V × Nat)

/-- `MapBasedFieldIndex::Update(it, v)`: read `eid = it->second`, erase
the old entry, insert `(v, eid)`, fire `OnUpdate(eid)`, return the new
iterator.  The last component lists the entity ids passed to the
registered `OnIndexValueUpdated` listeners. -/
def FieldIndexState.Update {V : Type} [DecidableEq V] (idx : FieldIndexState V)
    (it : V × Nat) (v : V) : FieldIndexState V × (V × Nat) × List Nat :=
  let eid := it.2
  let it1 : V × Nat := (v, eid)
  (⟨it1 ::ₘ idx.m.erase it⟩, it1, [eid])

structure FieldProxyS (V : Type) where
  value : V
  bound : Bool
  it : Option (V × Nat)

/-- `FieldProxyBase::Set(v)`: throw `UnboundFieldIndex` when `BindIndex`
never ran; silently return (touching nothing) when the stored iterator
is `end()`; otherwise store the value, update the index and store the
returned iterator. -/
def FieldProxyS.Set {V : Type} [DecidableEq V] (p : FieldProxyS V)
    (idx : FieldIndexState V) (v : V) :
    Except TErr (FieldProxyS V × FieldIndexState V × List Nat) :=
  if p.bound = false then .error .UnboundFieldIndex
  else
    match p.it with
    | none => .ok (p, idx, [])
    | some it =>
      let r := idx.Update it v
      .ok ({ p with value := v, it := some r.2.1 }, r.1, r.2.2)

/-! ## Theorems -/

theorem pack_eq_arith {a s : Nat} (ha : a < 2 ^ 13) (hs : s < 2 ^ 19) :
    Pack a s = 2 ^ 19 * a + s := by
  have hmask_a : a &&& 0x1fff = a := by
    have := Nat.and_pow_two_sub_one_of_lt_two_pow ha
    simpa using this
  have hmask_s : s &&& 0x7ffff = s := by
    have := Nat.and_pow_two_sub_one_of_lt_two_pow hs
    simpa using this
  have hshift : a <<< 19 = 2 ^ 19 * a := by
    rw [Nat.shiftLeft_eq, Nat.mul_comm]
  have hor : (a <<< 19) ||| s = 2 ^ 19 * a + s := by
    rw [hshift, ← Nat.mul_add_lt_is_or hs]
  have hlt : 2 ^ 19 * a + s < 2 ^ 32 := by
    have : 2 ^ 19 * a ≤ 2 ^ 19 * (2 ^ 13 - 1) := by
      exact Nat.mul_le_mul_left _ (by omega)
    omega
  unfold Pack
  rw [hmask_a, hmask_s, hor, Nat.mod_eq_of_lt hlt]

theorem unpackX_pack {a s : Nat} (ha : a < 2 ^ 13) (hs : s < 2 ^ 19) :
    UnpackX (Pack a s) = a := by
  rw [pack_eq_arith ha hs]
  unfold UnpackX
  have h1 : (2 ^ 19 * a + s) >>> 19 = a := by
    rw [Nat.shiftRight_eq_div_pow]
    rw [Nat.mul_add_div (by norm_num)]
    rw [Nat.div_eq_of_lt hs]
    omega
  rw [h1]
  have := Nat.and_pow_two_sub_one_of_lt_two_pow ha
  simpa using this

theorem unpackY_pack {a s : Nat} (ha : a < 2 ^ 13) (hs : s < 2 ^ 19) :
    UnpackY (Pack a s) = s := by
  rw [pack_eq_arith ha hs]
  unfold UnpackY
  have : (2 ^ 19 * a + s) &&& 0x7ffff = (2 ^ 19 * a + s) % 2 ^ 19 := by
    have := Nat.and_pow_two_sub_one_eq_mod (2 ^ 19 * a + s) 19
    simpa using this
  rw [this, Nat.mul_add_mod, Nat.mod_eq_of_lt hs]

/-- C2: round trip and order. -/
theorem pack_unpack_roundtrip_and_order (a₁ s₁ a₂ s₂ : Nat)
    (ha₁ : a₁ ≤ 8191) (hs₁ : s₁ ≤ 524287) (ha₂ : a₂ ≤ 8191) (hs₂ : s₂ ≤ 524287) :
    UnpackX (Pack a₁ s₁) = a₁ ∧ UnpackY (Pack a₁ s₁) = s₁ ∧
      (Pack a₁ s₁ < Pack a₂ s₂ ↔ (a₁ < a₂ ∨ (a₁ = a₂ ∧ s₁ < s₂))) := by
  have ha₁' : a₁ < 2 ^ 13 := by omega
  have hs₁' : s₁ < 2 ^ 19 := by omega
  have ha₂' : a₂ < 2 ^ 13 := by omega
  have hs₂' : s₂ < 2 ^ 19 := by omega
  refine ⟨unpackX_pack ha₁' hs₁', unpackY_pack ha₁' hs₁', ?_⟩
  rw [pack_eq_arith ha₁' hs₁', pack_eq_arith ha₂' hs₂']
  constructor
  · intro h
    by_cases hA : a₁ = a₂
    · right; constructor; exact hA; subst hA; omega
    · left
      by_contra hlt
      have : a₂ < a₁ := by omega
      have : 2 ^ 19 * a₂ + s₂ ≤ 2 ^ 19 * a₁ := by
        have : a₂ + 1 ≤ a₁ := this
        have h2 : 2 ^ 19 * (a₂ + 1) ≤ 2 ^ 19 * a₁ := Nat.mul_le_mul_left _ this
        omega
      omega
  · rintro (h | ⟨rfl, h⟩)
    · have : 2 ^ 19 * (a₁ + 1) ≤ 2 ^ 19 * a₂ := Nat.mul_le_mul_left _ (by omega)
      omega
    · omega

theorem pack_unpack_roundtrip_and_order_witness :
    UnpackX (Pack 3 7) = 3 ∧ UnpackY (Pack 3 7) = 7 ∧
      (Pack 3 7 < Pack 4 0 ↔ (3 < 4 ∨ (3 = 4 ∧ 7 < 0))) :=
  pack_unpack_roundtrip_and_order 3 7 4 0 (by decide) (by decide) (by decide) (by decide)

theorem Cemetery.empty_WF : Cemetery.empty.WF := by
  simp [Cemetery.empty, Cemetery.WF]

theorem Cemetery.reserve_blocks_length (c : Cemetery) (n : Nat) :
    (c.Reserve n).blocks.length = max c.blocks.length n := by
  simp [Cemetery.Reserve]
  omega

theorem Cemetery.reserve_WF {c : Cemetery} (h : c.WF) (n : Nat) : (c.Reserve n).WF := by
  unfold Cemetery.WF at *
  simp only [Cemetery.Reserve, List.length_append, List.length_replicate] at *
  omega

theorem Cemetery.reserve_getD (c : Cemetery) (n i : Nat) :
    (c.Reserve n).blocks.getD i ∅ = c.blocks.getD i ∅ := by
  show (c.blocks ++ List.replicate (n - c.blocks.length) ∅).getD i ∅ = c.blocks.getD i ∅
  rw [List.getD_eq_getElem?_getD, List.getD_eq_getElem?_getD, List.getElem?_append]
  by_cases hi : i < c.blocks.length
  · rw [if_pos hi]
  · rw [if_neg hi, List.getElem?_eq_none (show c.blocks.length ≤ i by omega), List.getElem?_replicate]
    by_cases hrep : i - c.blocks.length < n - c.blocks.length
    · rw [if_pos hrep]; rfl
    · rw [if_neg hrep]

theorem Cemetery.reserve_bound (c : Cemetery) (n : Nat) :
    (c.Reserve n).bound = c.bound + 1024 * (n - c.blocks.length) := rfl

theorem Cemetery.contains_reserve {c : Cemetery} (h : c.WF) (n x : Nat) :
    (c.Reserve n).Contains x = c.Contains x := by
  unfold Cemetery.Contains
  rw [Cemetery.reserve_getD, Cemetery.reserve_bound]
  unfold Cemetery.WF at h
  by_cases h1 : x < c.bound
  · rw [if_neg (by omega), if_neg (by omega)]
  · by_cases h2 : x ≥ c.bound + 1024 * (n - c.blocks.length)
    · rw [if_pos h2, if_pos (by omega)]
    · rw [if_neg h2, if_pos (by omega)]
      -- x ≥ old bound = 1024 * blocks.length, so the block index is out of range
      have hx : c.blocks.length ≤ x / 1024 := by
        rw [Nat.le_div_iff_mul_le (by norm_num)]
        omega
      rw [List.getD_eq_getElem?_getD, List.getElem?_eq_none hx]
      simp

theorem Cemetery.add_q (c : Cemetery) (e : Nat) : (c.Add e).q = c.q ++ [e] := rfl

theorem Cemetery.add_bound (c : Cemetery) (e : Nat) :
    (c.Add e).bound = (c.Reserve (e / 1024 + 1)).bound := rfl

theorem Cemetery.add_numBlocks (c : Cemetery) (e : Nat) :
    (c.Add e).NumBlocks = max c.NumBlocks (e / 1024 + 1) := by
  simp only [Cemetery.Add, Cemetery.NumBlocks, List.length_set]
  exact c.reserve_blocks_length (e / 1024 + 1)

theorem Cemetery.add_WF {c : Cemetery} (h : c.WF) (e : Nat) : (c.Add e).WF := by
  have hr := Cemetery.reserve_WF h (e / 1024 + 1)
  unfold Cemetery.WF at *
  simpa only [Cemetery.Add, List.length_set] using hr

theorem Cemetery.size_add (c : Cemetery) (e : Nat) : (c.Add e).Size = c.Size + 1 := by
  simp [Cemetery.Size, Cemetery.add_q]

theorem Cemetery.contains_add {c : Cemetery} (h : c.WF) (e x : Nat) :
    (c.Add e).Contains x = (decide (x = e) || c.Contains x) := by
  have hN : 0 < 1024 := by norm_num
  set i := e / 1024 with hi
  set j := e % 1024 with hj
  set c' := c.Reserve (i + 1) with hc'
  have hWF' : c'.WF := Cemetery.reserve_WF h (i + 1)
  have hlen' : c'.blocks.length = max c.blocks.length (i + 1) :=
    c.reserve_blocks_length (i + 1)
  have hilt : i < c'.blocks.length := by omega
  have hbound : (c.Add e).bound = c'.bound := rfl
  have he_lt : e < c'.bound := by
    unfold Cemetery.WF at hWF'
    have : e < 1024 * (i + 1) := by
      have := Nat.div_add_mod e 1024
      have := Nat.mod_lt e hN
      omega
    have : 1024 * (i + 1) ≤ 1024 * c'.blocks.length :=
      Nat.mul_le_mul_left _ (by omega)
    omega
  have hAblocks : (c.Add e).blocks = c'.blocks.set i (insert j (c'.blocks.getD i ∅)) := rfl
  have hcontains' : ∀ y, c'.Contains y = c.Contains y :=
    fun y => Cemetery.contains_reserve h (i + 1) y
  by_cases hxe : x = e
  · subst hxe
    unfold Cemetery.Contains
    rw [hbound, hAblocks, if_neg (by omega)]
    rw [List.getD_eq_getElem?_getD, List.getElem?_set_self hilt]
    simp [← hi, ← hj]
  · -- x ≠ e: the touched bit is a different one, Contains is unchanged
    have hne : (c.Add e).Contains x = c'.Contains x := by
      unfold Cemetery.Contains
      rw [hbound, hAblocks]
      by_cases hge : x ≥ c'.bound
      · rw [if_pos hge, if_pos hge]
      · rw [if_neg hge, if_neg hge]
        by_cases hix : x / 1024 = i
        · have hjx : x % 1024 ≠ j := by
            intro hcontra
            apply hxe
            have h1 := Nat.div_add_mod x 1024
            have h2 := Nat.div_add_mod e 1024
            rw [← hi, ← hj] at h2
            omega
          rw [hix, List.getD_eq_getElem?_getD, List.getElem?_set_self hilt]
          simp [List.getD_eq_getElem?_getD, Finset.mem_insert, hjx]
        · rw [List.getD_eq_getElem?_getD, List.getElem?_set_ne (Ne.symm hix),
            ← List.getD_eq_getElem?_getD]
    rw [hne, hcontains', decide_eq_false hxe, Bool.false_or]

theorem Cemetery.pop_spec {c : Cemetery} (h : c.WF) (e : Nat) (rest : List Nat)
    (hq : c.q = e :: rest) :
    (c.Pop).1 = e ∧ (c.Pop).2.q = rest ∧ (c.Pop).2.WF ∧ (c.Pop).2.Size = c.Size - 1 ∧
      ∀ x, (c.Pop).2.Contains x = (!decide (x = e) && c.Contains x) := by
  have hN : 0 < 1024 := by norm_num
  obtain ⟨q, blocks, bound⟩ := c
  simp only at hq
  subst hq
  set i := e / 1024 with hi
  set j := e % 1024 with hj
  unfold Cemetery.WF at h
  simp only at h
  refine ⟨rfl, rfl, ?_, rfl, ?_⟩
  · unfold Cemetery.WF
    simp [Cemetery.Pop, h]
  · intro x
    show (Cemetery.Contains ⟨rest, blocks.set i ((blocks.getD i ∅).erase j), bound⟩ x) = _
    unfold Cemetery.Contains
    simp only
    by_cases hge : x ≥ bound
    · rw [if_pos hge, if_pos hge]
      simp
    · rw [if_neg hge, if_neg hge]
      by_cases hlen : i < blocks.length
      · by_cases hxe : x = e
        · subst hxe
          have hix : x / 1024 = i := hi.symm ▸ rfl
          rw [hix, List.getD_eq_getElem?_getD, List.getElem?_set_self hlen]
          simp [← hj]
        · by_cases hix : x / 1024 = i
          · have hjx : x % 1024 ≠ j := by
              intro hcontra
              apply hxe
              have h1 := Nat.div_add_mod x 1024
              have h2 := Nat.div_add_mod e 1024
              rw [← hi, ← hj] at h2
              omega
            rw [hix, List.getD_eq_getElem?_getD, List.getElem?_set_self hlen]
            simp [List.getD_eq_getElem?_getD, Finset.mem_erase, hjx, hxe]
          · rw [List.getD_eq_getElem?_getD, List.getElem?_set_ne (Ne.symm hix),
              ← List.getD_eq_getElem?_getD]
            simp [hxe]
      · -- e ≥ bound: the set is out of range, and x = e is impossible below bound
        push_neg at hlen
        rw [List.set_eq_of_length_le hlen]
        have hxe : x ≠ e := by
          intro hcontra
          subst hcontra
          have : blocks.length ≤ x / 1024 := hi ▸ hlen
          have : 1024 * blocks.length ≤ 1024 * (x / 1024) :=
            Nat.mul_le_mul_left _ this
          have := Nat.div_add_mod x 1024
          omega
        simp [hxe]

theorem Cemetery.addList_numBlocks (c : Cemetery) (es : List Nat) :
    (c.addList es).NumBlocks = es.foldl (fun b e => max b (e / 1024 + 1)) c.NumBlocks := by
  induction es generalizing c with
  | nil => rfl
  | cons e es ih =>
    simp only [Cemetery.addList, List.foldl_cons] at *
    rw [ih, Cemetery.add_numBlocks]

theorem foldl_max_div_succ (es : List Nat) (a : Nat) :
    es.foldl (fun b e => max b (e / 1024 + 1)) (a / 1024 + 1) = (es.foldl max a) / 1024 + 1 := by
  induction es generalizing a with
  | nil => rfl
  | cons e es ih =>
    simp only [List.foldl_cons]
    have hstep : max (a / 1024 + 1) (e / 1024 + 1) = max a e / 1024 + 1 := by omega
    rw [hstep, ih (max a e)]

/-- C6 (amended): after a non-empty sequence of `Add(e)` calls on a fresh
cemetery (no explicit `Reserve`), `NumBlocks()` equals
`max_added_id / 1024 + 1` (i.e. `⌈(max_added_id + 1) / 1024⌉`), not
`⌈max_added_id / 1024⌉`. -/
theorem cemetery_numBlocks_of_adds (es : List Nat) (h : es ≠ []) :
    (Cemetery.empty.addList es).NumBlocks = (es.foldl max 0) / 1024 + 1 := by
  cases es with
  | nil => exact absurd rfl h
  | cons e es =>
    rw [Cemetery.addList_numBlocks]
    simp only [List.foldl_cons]
    have h0 : Cemetery.empty.NumBlocks = 0 := rfl
    rw [h0]
    have h1 : max 0 (e / 1024 + 1) = e / 1024 + 1 := by omega
    have h2 : (max 0 e) = e := by omega
    rw [h1, h2, foldl_max_div_succ es e]

theorem cemetery_numBlocks_of_adds_witness :
    ([34, 1024, 44] : List Nat) ≠ [] ∧
      (Cemetery.empty.addList [34, 1024, 44]).NumBlocks = ([34, 1024, 44].foldl max 0) / 1024 + 1 :=
  ⟨by decide, cemetery_numBlocks_of_adds [34, 1024, 44] (by decide)⟩

/-- C6 counterexample: the single call `Add(1024)` produces `NumBlocks() = 2`
(the code reserves `1024 / 1024 + 1 = 2` blocks), while
`⌈1024 / 1024⌉ = 1`; so `NumBlocks()` is not `⌈max_added_id / 1024⌉`. -/
theorem cemetery_numBlocks_ceil_counterexample :
    (Cemetery.empty.addList [1024]).NumBlocks = 2 ∧ (1024 + 1024 - 1) / 1024 = 1 ∧
      (Cemetery.empty.addList [1024]).NumBlocks ≠ (1024 + 1024 - 1) / 1024 := by
  refine ⟨rfl, rfl, by decide⟩

theorem list_set_getD_self {α : Type _} (l : List α) (i : Nat) (d : α) (h : i < l.length) :
    l.set i (l.getD i d) = l := by
  apply List.ext_getElem?
  intro j
  by_cases hij : i = j
  · subst hij
    rw [List.getElem?_set_self h, List.getD_eq_getElem?_getD, List.getElem?_eq_getElem h]
    rfl
  · rw [List.getElem?_set_ne hij]

theorem unpackX_lt (eid : Nat) : UnpackX eid < 2 ^ 13 := by
  have h : UnpackX eid ≤ 0x1fff := Nat.and_le_right
  omega

theorem unpackY_lt (eid : Nat) : UnpackY eid < 2 ^ 19 := by
  have h : UnpackY eid ≤ 0x7ffff := Nat.and_le_right
  omega

theorem pack_unpack_self {eid : Nat} (h : eid < 2 ^ 32) :
    Pack (UnpackX eid) (UnpackY eid) = eid := by
  have hX : UnpackX eid = eid / 2 ^ 19 := by
    unfold UnpackX
    rw [Nat.shiftRight_eq_div_pow]
    have hd : eid / 2 ^ 19 < 2 ^ 13 := by
      rw [Nat.div_lt_iff_lt_mul (by norm_num)]
      omega
    have := Nat.and_pow_two_sub_one_of_lt_two_pow hd
    simpa using this
  have hY : UnpackY eid = eid % 2 ^ 19 := by
    unfold UnpackY
    have := Nat.and_pow_two_sub_one_eq_mod eid 19
    simpa using this
  have hd : eid / 2 ^ 19 < 2 ^ 13 := by
    rw [Nat.div_lt_iff_lt_mul (by norm_num)]
    omega
  rw [hX, hY, pack_eq_arith hd (Nat.mod_lt _ (by norm_num))]
  exact Nat.div_add_mod eid (2 ^ 19)

/-- C8: the checked lookup APIs never signal an error: `IsAlive` is false
and `Get` returns the null sentinel (whose own `IsAlive()` is false)
whenever the archetype id is outside the table or the entity is not
alive; for an alive entity `Get` returns the entity's reference. -/
theorem world_checked_lookup (w : WorldState) (eid : Nat)
    (hwf : w.WF) (heid : eid < 2 ^ 32) :
    w.RefIsAlive NullEntityReference = false
    ∧ (UnpackX eid ≥ w.archetypes.length →
        w.IsAlive eid = false ∧ w.Get eid = NullEntityReference)
    ∧ (UnpackX eid < w.archetypes.length →
        ((w.archetypes.getD (UnpackX eid) (ArchState.fresh 0)).IsAlive (UnpackY eid) = false →
          w.IsAlive eid = false ∧ w.Get eid = NullEntityReference)
        ∧ ((w.archetypes.getD (UnpackX eid) (ArchState.fresh 0)).IsAlive (UnpackY eid) = true →
          w.IsAlive eid = true ∧ w.Get eid = ⟨some (UnpackX eid), eid⟩
            ∧ w.RefIsAlive (w.Get eid) = true)) := by
  refine ⟨rfl, ?_, ?_⟩
  · intro hout
    constructor
    · unfold WorldState.IsAlive
      rw [if_pos hout]
    · unfold WorldState.Get
      rw [if_pos hout]
  · intro hin
    constructor
    · intro hdead
      constructor
      · unfold WorldState.IsAlive
        rw [if_neg (by omega), hdead]
      · unfold WorldState.Get
        rw [if_neg (by omega)]
        unfold ArchState.Get
        rw [hdead]
        rfl
    · intro halive
      have hid : (w.archetypes.getD (UnpackX eid) (ArchState.fresh 0)).id = UnpackX eid :=
        hwf _ hin
      have hget : w.Get eid = ⟨some (UnpackX eid), eid⟩ := by
        unfold WorldState.Get
        rw [if_neg (by omega)]
        unfold ArchState.Get
        rw [halive, if_pos rfl, hid, pack_unpack_self heid]
      refine ⟨?_, hget, ?_⟩
      · unfold WorldState.IsAlive
        rw [if_neg (by omega), halive]
      · rw [hget]
        unfold WorldState.RefIsAlive
        exact halive

theorem world_checked_lookup_witness :
    (let w : WorldState := ((WorldState.empty.NewArchetype).NewEntity 0).1.Kill 0
     w.WF ∧ (7 : Nat) < 2 ^ 32
       ∧ (w.IsAlive 7 = false ∧ w.Get 7 = NullEntityReference)) := by
  have h := world_checked_lookup (((WorldState.empty.NewArchetype).NewEntity 0).1.Kill 0) 7
    (by decide) (by norm_num)
  refine ⟨by decide, by norm_num, ?_⟩
  exact (h.2.2 (by decide)).1 (by decide)

/-- C10: `DelayedKill` (with or without a callback) on an entity that is
not alive — never allocated, to-born, or dead — or whose archetype id is
outside the table, leaves the world (archetype `toKill` maps, the
world's deferred-kill queue, recorded callbacks) unchanged. -/
theorem world_delayedKill_not_alive_noop (w : WorldState) (eid : Nat) (cb : Option Unit)
    (h : UnpackX eid ≥ w.archetypes.length
      ∨ (w.archetypes.getD (UnpackX eid) (ArchState.fresh 0)).IsAlive (UnpackY eid) = false) :
    w.DelayedKill eid cb = some w := by
  unfold WorldState.DelayedKill
  rcases h with h | h
  · rw [if_pos h]
  · by_cases hin : UnpackX eid ≥ w.archetypes.length
    · rw [if_pos hin]
    · rw [if_neg hin]
      push_neg at hin
      simp only [ArchState.DelayedKill, h, Bool.false_eq_true, if_false, List.append_nil]
      rw [list_set_getD_self _ _ _ hin]

theorem world_delayedKill_not_alive_noop_witness :
    (let w : WorldState := ((WorldState.empty.NewArchetype).NewEntity 0).1.Kill 0
     (UnpackX 0 ≥ w.archetypes.length
        ∨ (w.archetypes.getD (UnpackX 0) (ArchState.fresh 0)).IsAlive (UnpackY 0) = false)
       ∧ w.DelayedKill 0 none = some w) :=
  ⟨by decide,
    world_delayedKill_not_alive_noop _ 0 none (by decide)⟩

/-! ## Short-id state exclusivity (C5) and the delayed lifecycle (C3) -/

/-- C5 (code bug): with one archetype, `DelayedNewEntity` (returning
`Pack(0,0) = 0`) followed by `World::Kill(0)` puts short id 0 in the
cemetery while it stays in the `toBorn` map (`IArchetype::Kill` does not
erase `toBorn`), so `cemetery.Size + toBorn.size = 2 > ecursor = 1`,
contradicting the `NumEntities` comment in src/tinyecs.h; and after
`ApplyDelayedNewEntities` the id is simultaneously in the cemetery and
in the alive set. -/
theorem short_id_state_exclusivity_violated :
    (let w1 := WorldState.empty.NewArchetype
     let w2 := (w1.DelayedNewEntity 0).1
     let w3 := w2.Kill 0
     let st3 := w3.archetypes.getD 0 (ArchState.fresh 0)
     let st4 := w3.ApplyDelayedNewEntities.archetypes.getD 0 (ArchState.fresh 0)
     (w1.DelayedNewEntity 0).2 = 0
       ∧ st3.cemetery.Contains 0 = true ∧ 0 ∈ st3.toBorn
       ∧ st3.ecursor = 1 ∧ st3.cemetery.Size + st3.toBorn.card = 2
       ∧ st4.cemetery.Contains 0 = true ∧ 0 ∈ st4.alives) := by
  decide

/-- C3: in a world with one archetype and three entities `0, 1, 2`:
a `DelayedNewEntity` id is not alive until `ApplyDelayedNewEntities`;
entities delayed-killed (with user callbacks) in order `1, 2, 0` stay
alive until `ApplyDelayedKills`, after which all are dead and the
before-kill callbacks ran in exactly the order `1, 2, 0` of the
`DelayedKill` calls; but `DelayedKill` *without* a user callback on an
alive entity reaches the null-`Accessor` dereference
(`const auto& callback = *beforeKillPtr` with `beforeKillPtr == nullptr`
in `IArchetype::DelayedKill`), modelled as `none`. -/
theorem delayed_lifecycle_order_and_null_callback :
    (let w1 := WorldState.empty.NewArchetype
     let wa := (w1.NewEntity 0).1
     let wb := (wa.NewEntity 0).1
     let wc := (wb.NewEntity 0).1
     ((w1.NewEntity 0).2 = 0 ∧ (wa.NewEntity 0).2 = 1 ∧ (wb.NewEntity 0).2 = 2)
     ∧ (let wd := (wc.DelayedNewEntity 0).1
        (wc.DelayedNewEntity 0).2 = 3 ∧ wd.IsAlive 3 = false
          ∧ wd.ApplyDelayedNewEntities.IsAlive 3 = true)
     ∧ (let k1 := (wc.DelayedKill 1 (some ())).getD WorldState.empty
        let k2 := (k1.DelayedKill 2 (some ())).getD WorldState.empty
        let k3 := (k2.DelayedKill 0 (some ())).getD WorldState.empty
        (wc.DelayedKill 1 (some ())).isSome
          ∧ (k1.DelayedKill 2 (some ())).isSome
          ∧ (k2.DelayedKill 0 (some ())).isSome
          ∧ k3.IsAlive 0 = true ∧ k3.IsAlive 1 = true ∧ k3.IsAlive 2 = true
          ∧ (k3.ApplyDelayedKills.1.IsAlive 0 = false
              ∧ k3.ApplyDelayedKills.1.IsAlive 1 = false
              ∧ k3.ApplyDelayedKills.1.IsAlive 2 = false
              ∧ k3.ApplyDelayedKills.2 = [1, 2, 0]))
     ∧ wc.DelayedKill 0 none = none) := by
  decide

theorem newEntity_afterNew (a m : Nat) :
    (ArchState.afterNew a m).NewEntity = (ArchState.afterNew a (m + 1), m) := by
  unfold ArchState.NewEntity ArchState.AllocateForNewEntity ArchState.afterNew
  simp [Cemetery.empty, Cemetery.Size, Finset.range_succ]

theorem newMany_afterNew (a n m : Nat) :
    (ArchState.afterNew a m).newMany n = (ArchState.afterNew a (m + n), List.range' m n) := by
  induction n generalizing m with
  | zero => rfl
  | succ n ih =>
    simp only [ArchState.newMany, newEntity_afterNew, ih (m + 1)]
    rw [List.range'_succ, show m + 1 + n = m + (n + 1) by omega]

theorem killInv_base (a n : Nat) : KillInv a n [] (ArchState.afterNew a n) where
  hid := rfl
  hcur := rfl
  hq := rfl
  hWF := Cemetery.empty_WF
  hcont := by
    intro x
    simp [ArchState.afterNew, Cemetery.Contains, Cemetery.empty]
  halives := by simp [ArchState.afterNew]
  htb := rfl
  htk := rfl

theorem killInv_step {a n : Nat} {killed : List Nat} {st : ArchState}
    (h : KillInv a n killed st) (k : Nat) (hk : k < n) (hnk : k ∉ killed) :
    KillInv a n (killed ++ [k]) (st.Kill k false).1 := by
  have hcond : (decide (k ≥ st.ecursor) || st.cemetery.Contains k) = false := by
    rw [h.hcur, h.hcont]
    simp [hk, hnk]
  unfold ArchState.Kill
  rw [hcond]
  simp only [Bool.false_eq_true, if_false]
  exact {
    hid := h.hid
    hcur := h.hcur
    hq := by rw [Cemetery.add_q, h.hq]
    hWF := Cemetery.add_WF h.hWF k
    hcont := by
      intro x
      rw [Cemetery.contains_add h.hWF, h.hcont]
      by_cases hx : x = k <;> simp [hx]
    halives := by
      rw [h.halives]
      ext x
      simp only [Finset.mem_erase, Finset.mem_sdiff, Finset.mem_range,
        List.toFinset_append, Finset.mem_union, List.mem_toFinset, List.toFinset_cons,
        List.toFinset_nil, insert_emptyc_eq, Finset.mem_insert, List.mem_singleton,
        Finset.mem_singleton]
      tauto
    htb := h.htb
    htk := h.htk }

theorem killInv_fold {a n : Nat} {ks killed : List Nat} {st : ArchState}
    (h : KillInv a n killed st) (hnd : ks.Nodup) (hlt : ∀ k ∈ ks, k < n)
    (hdis : ∀ k ∈ ks, k ∉ killed) :
    KillInv a n (killed ++ ks) (st.killList ks) := by
  induction ks generalizing st killed with
  | nil => simpa [ArchState.killList] using h
  | cons k ks ih =>
    obtain ⟨hk_not_mem, hnd'⟩ := List.nodup_cons.mp hnd
    have hstep := killInv_step h k (hlt k (by simp)) (hdis k (by simp))
    have hrec := ih hstep hnd' (fun k' hk' => hlt k' (by simp [hk']))
      (fun k' hk' => by
        simp only [List.mem_append, List.mem_singleton]
        push_neg
        exact ⟨hdis k' (by simp [hk']), fun hkk => hk_not_mem (hkk ▸ hk')⟩)
    simpa [ArchState.killList, List.append_assoc] using hrec

theorem newMany_pops {st : ArchState} {ks : List Nat} (m : Nat)
    (hq : st.cemetery.q = ks) (hWF : st.cemetery.WF)
    (hcont : ∀ x, st.cemetery.Contains x = decide (x ∈ ks))
    (hnd : ks.Nodup) (hm : m ≤ ks.length) :
    (st.newMany m).2 = ks.take m := by
  induction m generalizing st ks with
  | zero => simp [ArchState.newMany]
  | succ m ih =>
    cases ks with
    | nil => simp at hm
    | cons k rest =>
      obtain ⟨hk_not_mem, hnd'⟩ := List.nodup_cons.mp hnd
      have hsize : st.cemetery.Size ≠ 0 := by simp [Cemetery.Size, hq]
      obtain ⟨hp1, hp2, hp3, _hp4, hp5⟩ := Cemetery.pop_spec hWF k rest hq
      have hne : st.NewEntity =
          ({ st with cemetery := (st.cemetery.Pop).2,
                     alives := insert ((st.cemetery.Pop).1) st.alives },
            (st.cemetery.Pop).1) := by
        unfold ArchState.NewEntity ArchState.AllocateForNewEntity
        rw [if_pos hsize]
      have hcont2 : ∀ x, (st.cemetery.Pop).2.Contains x = decide (x ∈ rest) := by
        intro x
        rw [hp5 x, hcont x]
        by_cases hx : x = k
        · subst hx
          simp [hk_not_mem]
        · simp [hx]
      simp only [ArchState.newMany, hne, hp1, List.take_succ_cons]
      have hker := @ih ⟨st.id, st.ecursor, insert k st.alives, (st.cemetery.Pop).2,
        st.toBorn, st.toKill⟩ rest hp2 hp3 hcont2 hnd' (by simpa using hm)
      simp [hker]

/-- C7: in an archetype where `n` entities were created and then every
one of them killed (in any order `ks`), `NumEntities() = 0`, and the
next `NewEntity` calls reuse the dead short ids in first-in-first-out
order of the kills: `m` further creations return exactly the first `m`
entries of `ks` (in particular the very next `NewEntity` returns the
first-killed short id). -/
theorem archetype_fifo_reuse (a n m : Nat) (ks : List Nat)
    (hnd : ks.Nodup) (hlt : ∀ k ∈ ks, k < n) (hlen : ks.length = n) (hm : m ≤ n) :
    (((ArchState.fresh a).newMany n).1.killList ks).NumEntities = 0
    ∧ ((((ArchState.fresh a).newMany n).1.killList ks).newMany m).2 = ks.take m := by
  have h1 : ((ArchState.fresh a).newMany n).1 = ArchState.afterNew a n := by
    have : ArchState.fresh a = ArchState.afterNew a 0 := by
      simp [ArchState.fresh, ArchState.afterNew]
    rw [this, newMany_afterNew]
    simp
  have hki : KillInv a n ([] ++ ks) ((ArchState.afterNew a n).killList ks) :=
    killInv_fold (killInv_base a n) hnd hlt (by simp)
  simp only [List.nil_append] at hki
  rw [h1]
  constructor
  · unfold ArchState.NumEntities
    rw [hki.hcur, hki.htb]
    have hsz : ((ArchState.afterNew a n).killList ks).cemetery.Size = ks.length := by
      simp [Cemetery.Size, hki.hq]
    rw [hsz, hlen]
    simp
  · exact newMany_pops m hki.hq hki.hWF hki.hcont hnd (by omega)

theorem archetype_fifo_reuse_witness :
    ([1, 0] : List Nat).Nodup ∧ (∀ k ∈ ([1, 0] : List Nat), k < 2)
      ∧ ([1, 0] : List Nat).length = 2 ∧ 2 ≤ 2
      ∧ (((ArchState.fresh 0).newMany 2).1.killList [1, 0]).NumEntities = 0
      ∧ ((((ArchState.fresh 0).newMany 2).1.killList [1, 0]).newMany 2).2
          = ([1, 0] : List Nat).take 2 := by
  have h := archetype_fifo_reuse 0 2 2 [1, 0] (by decide) (by decide) (by decide) (by decide)
  exact ⟨by decide, by decide, by decide, by decide, h.1, h.2⟩

theorem foldl_inter_mem (l : List (Fin 128)) (sig : Finset (Fin 128))
    (b : Fin 128 → Finset Nat) (ans : Finset Nat) (x : Nat) :
    (x ∈ l.foldl (fun ans i => if i ∈ sig then ans ∩ b i else ans) ans
      ↔ x ∈ ans ∧ ∀ i ∈ l, i ∈ sig → x ∈ b i) := by
  induction l generalizing ans with
  | nil => simp
  | cons i l ih =>
    simp only [List.foldl_cons]
    by_cases hi : i ∈ sig
    · rw [if_pos hi, ih]
      simp only [Finset.mem_inter, List.forall_mem_cons, hi, true_implies]
      tauto
    · rw [if_neg hi, ih]
      simp only [List.forall_mem_cons, hi, false_implies, true_and]

theorem foldl_union_mem (l : List (Fin 128)) (sig : Finset (Fin 128))
    (b : Fin 128 → Finset Nat) (ans : Finset Nat) (x : Nat) :
    (x ∈ l.foldl (fun ans i => if i ∈ sig then ans ∪ b i else ans) ans
      ↔ x ∈ ans ∨ ∃ i ∈ l, i ∈ sig ∧ x ∈ b i) := by
  induction l generalizing ans with
  | nil => simp
  | cons i l ih =>
    simp only [List.foldl_cons]
    by_cases hi : i ∈ sig
    · rw [if_pos hi, ih]
      simp only [Finset.mem_union, List.exists_mem_cons_iff, hi, true_and]
      tauto
    · rw [if_neg hi, ih]
      simp only [List.exists_mem_cons_iff, hi, false_and, false_or]

theorem matchAll_mem (m : Matcher) (sig : Finset (Fin 128)) (x : Nat) :
    (x ∈ m.MatchAll sig ↔ x ∈ m.all ∧ ∀ i ∈ sig, x ∈ m.b i) := by
  unfold Matcher.MatchAll
  rw [foldl_inter_mem]
  constructor
  · rintro ⟨h1, h2⟩
    exact ⟨h1, fun i hi => h2 i (List.mem_finRange i) hi⟩
  · rintro ⟨h1, h2⟩
    exact ⟨h1, fun i _ hi => h2 i hi⟩

theorem matchAny_mem (m : Matcher) (sig : Finset (Fin 128)) (x : Nat) :
    (x ∈ m.MatchAny sig ↔ ∃ i ∈ sig, x ∈ m.b i) := by
  unfold Matcher.MatchAny
  rw [foldl_union_mem]
  constructor
  · rintro (h | ⟨i, _, hi, hx⟩)
    · simp at h
    · exact ⟨i, hi, hx⟩
  · rintro ⟨i, hi, hx⟩
    exact Or.inr ⟨i, List.mem_finRange i, hi, hx⟩

theorem putList_all_mem (sigs : List (Finset (Fin 128))) (m : Matcher) (k x : Nat) :
    (x ∈ (m.putList k sigs).all ↔ x ∈ m.all ∨ (k ≤ x ∧ x < k + sigs.length)) := by
  induction sigs generalizing m k with
  | nil => simp [Matcher.putList]
  | cons s rest ih =>
    show (x ∈ ((m.PutArchetypeId s k).putList (k + 1) rest).all ↔ _)
    rw [ih]
    simp only [Matcher.PutArchetypeId, Finset.mem_insert, List.length_cons]
    constructor
    · rintro ((h | h) | h) <;> first | (left; exact h) | omega
    · rintro (h | h)
      · exact Or.inl (Or.inr h)
      · by_cases hx : x = k
        · exact Or.inl (Or.inl hx)
        · right; omega

theorem putList_b_mem (sigs : List (Finset (Fin 128))) (m : Matcher) (k x : Nat)
    (i : Fin 128) :
    (x ∈ (m.putList k sigs).b i
      ↔ x ∈ m.b i ∨ (k ≤ x ∧ x < k + sigs.length ∧ i ∈ sigs.getD (x - k) ∅)) := by
  induction sigs generalizing m k with
  | nil => simp [Matcher.putList]
  | cons s rest ih =>
    show (x ∈ ((m.PutArchetypeId s k).putList (k + 1) rest).b i ↔ _)
    rw [ih]
    simp only [Matcher.PutArchetypeId, List.length_cons]
    by_cases hs : i ∈ s
    · rw [if_pos hs]
      simp only [Finset.mem_insert]
      constructor
      · rintro ((h | h) | ⟨h1, h2, h3⟩)
        · subst h
          right
          refine ⟨le_refl _, by omega, ?_⟩
          simpa using hs
        · exact Or.inl h
        · right
          refine ⟨by omega, by omega, ?_⟩
          have hxk : x - k = (x - (k + 1)) + 1 := by omega
          rw [hxk]
          simpa using h3
      · rintro (h | ⟨h1, h2, h3⟩)
        · exact Or.inl (Or.inr h)
        · by_cases hx : x = k
          · exact Or.inl (Or.inl hx)
          · right
            refine ⟨by omega, by omega, ?_⟩
            have hxk : x - k = (x - (k + 1)) + 1 := by omega
            rw [hxk] at h3
            simpa using h3
    · rw [if_neg hs]
      constructor
      · rintro (h | ⟨h1, h2, h3⟩)
        · exact Or.inl h
        · right
          refine ⟨by omega, by omega, ?_⟩
          have hxk : x - k = (x - (k + 1)) + 1 := by omega
          rw [hxk]
          simpa using h3
      · rintro (h | ⟨h1, h2, h3⟩)
        · exact Or.inl h
        · by_cases hx : x = k
          · subst hx
            simp at h3
            exact absurd h3 hs
          · right
            refine ⟨by omega, by omega, ?_⟩
            have hxk : x - k = (x - (k + 1)) + 1 := by omega
            rw [hxk] at h3
            simpa using h3

theorem mkMatcher_all_mem (sigs : List (Finset (Fin 128))) (x : Nat) :
    (x ∈ (mkMatcher sigs).all ↔ x < sigs.length) := by
  unfold mkMatcher
  rw [putList_all_mem]
  simp [Matcher.init]

theorem mkMatcher_b_mem (sigs : List (Finset (Fin 128))) (x : Nat) (i : Fin 128) :
    (x ∈ (mkMatcher sigs).b i ↔ x < sigs.length ∧ i ∈ sigs.getD x ∅) := by
  unfold mkMatcher
  rw [putList_b_mem]
  simp [Matcher.init]

/-- C4: membership characterization of `Match` for the three relations,
over the matcher of a world with the given archetype signatures. -/
theorem matcher_match_characterization (sigs : List (Finset (Fin 128)))
    (hlen : sigs.length ≤ 4096) (sig : Finset (Fin 128)) (aid : Nat) :
    ((aid ∈ (mkMatcher sigs).Match .ALL sig
        ↔ aid < sigs.length ∧ ∀ i ∈ sig, i ∈ sigs.getD aid ∅)
    ∧ (sig = ∅ →
        (aid ∈ (mkMatcher sigs).Match .ANY sig ↔ aid < sigs.length))
    ∧ (sig ≠ ∅ →
        (aid ∈ (mkMatcher sigs).Match .ANY sig
          ↔ aid < sigs.length ∧ ∃ i ∈ sig, i ∈ sigs.getD aid ∅))
    ∧ (aid ∈ (mkMatcher sigs).Match .NONE sig
        ↔ aid < sigs.length ∧ ∀ i ∈ sig, i ∉ sigs.getD aid ∅)) := by
  refine ⟨?_, ?_, ?_, ?_⟩
  · show (aid ∈ ((mkMatcher sigs).MatchAll sig).filter (· < 4096) ↔ _)
    rw [Finset.mem_filter, matchAll_mem]
    rw [mkMatcher_all_mem]
    constructor
    · rintro ⟨⟨h1, h2⟩, _⟩
      exact ⟨h1, fun i hi => (mkMatcher_b_mem sigs aid i).mp (h2 i hi) |>.2⟩
    · rintro ⟨h1, h2⟩
      exact ⟨⟨h1, fun i hi => (mkMatcher_b_mem sigs aid i).mpr ⟨h1, h2 i hi⟩⟩, by omega⟩
  · intro hempty
    show (aid ∈ ((if sig = ∅ then (mkMatcher sigs).all else _).filter (· < 4096)) ↔ _)
    rw [if_pos hempty, Finset.mem_filter, mkMatcher_all_mem]
    constructor
    · rintro ⟨h, _⟩; exact h
    · intro h; exact ⟨h, by omega⟩
  · intro hne
    show (aid ∈ ((if sig = ∅ then (mkMatcher sigs).all else (mkMatcher sigs).MatchAny sig).filter (· < 4096)) ↔ _)
    rw [if_neg hne, Finset.mem_filter, matchAny_mem]
    constructor
    · rintro ⟨⟨i, hi, hx⟩, _⟩
      obtain ⟨h1, h2⟩ := (mkMatcher_b_mem sigs aid i).mp hx
      exact ⟨h1, i, hi, h2⟩
    · rintro ⟨h1, i, hi, h2⟩
      exact ⟨⟨i, hi, (mkMatcher_b_mem sigs aid i).mpr ⟨h1, h2⟩⟩, by omega⟩
  · show (aid ∈ ((mkMatcher sigs).MatchNone sig).filter (· < 4096) ↔ _)
    rw [Finset.mem_filter]
    unfold Matcher.MatchNone
    rw [Finset.mem_sdiff, matchAny_mem, mkMatcher_all_mem]
    constructor
    · rintro ⟨⟨h1, h2⟩, _⟩
      refine ⟨h1, fun i hi hmem => h2 ⟨i, hi, ?_⟩⟩
      exact (mkMatcher_b_mem sigs aid i).mpr ⟨h1, hmem⟩
    · rintro ⟨h1, h2⟩
      refine ⟨⟨h1, ?_⟩, by omega⟩
      rintro ⟨i, hi, hx⟩
      exact h2 i hi ((mkMatcher_b_mem sigs aid i).mp hx).2

theorem matcher_match_characterization_witness :
    (let sigs : List (Finset (Fin 128)) := [{0, 1, 2}]
     sigs.length ≤ 4096
       ∧ (0 ∈ (mkMatcher sigs).Match .ALL {0, 1}
            ↔ 0 < sigs.length ∧ ∀ i ∈ ({0, 1} : Finset (Fin 128)), i ∈ sigs.getD 0 ∅)) := by
  refine ⟨by decide, ?_⟩
  exact (matcher_match_characterization [{0, 1, 2}] (by decide) {0, 1} 0).1

theorem runFilterAux_singleton (eid : Nat) (l : List Nat) :
    runFilterAux {eid} l ∅ = if eid ∈ l then {eid} else ∅ := by
  induction l with
  | nil => simp [runFilterAux]
  | cons e rest ih =>
    unfold runFilterAux
    by_cases he : e = eid
    · subst he
      simp
    · have h1 : (e ∈ ({eid} : Finset Nat)) = False := by
        simp [Finset.mem_singleton, he]
      simp only [h1, if_false]
      have h2 : (∅ : Finset Nat).card = ({eid} : Finset Nat).card ↔ False := by
        simp
      rw [if_neg (by simp)]
      rw [ih]
      have hne : ¬(eid = e) := fun hcontra => he hcontra.symm
      simp [hne]

theorem filterRun_singleton (f : FilterModel) (eid : Nat) :
    f.run {eid} = if eid ∈ f.enum then {eid} else ∅ :=
  runFilterAux_singleton eid f.enum

theorem applyFiltersFrom_empty (filters : List FilterModel) :
    applyFiltersFrom ∅ filters = ∅ := by
  cases filters with
  | nil => rfl
  | cons f rest => simp [applyFiltersFrom]

/-- The single-entity filter test succeeds iff the entity appears in the
enumeration of **every** filter of the list. -/
theorem testFilters_iff (filters : List FilterModel) (eid : Nat) :
    (testFiltersSingleEntityId filters eid = true ↔ ∀ f ∈ filters, eid ∈ f.enum) := by
  induction filters with
  | nil => simp [testFiltersSingleEntityId, applyFiltersFrom]
  | cons f rest ih =>
    unfold testFiltersSingleEntityId applyFiltersFrom
    rw [if_pos (by simp)]
    rw [filterRun_singleton]
    by_cases hf : eid ∈ f.enum
    · rw [if_pos hf]
      unfold testFiltersSingleEntityId at ih
      rw [ih]
      simp [hf]
    · rw [if_neg hf]
      rw [applyFiltersFrom_empty]
      simp [hf]

/-- C1: behaviour of the three maintenance callbacks a cacher registers.
The entity-creation callback (on matched archetypes) inserts an entity
passing every filter and leaves the cache unchanged otherwise; the
entity-removal callback erases unconditionally; the index-update
callback, for an entity of a matched archetype, re-tests the entire
filter list, inserting when every filter passes and erasing
otherwise. -/
theorem cacher_maintenance (matched : Finset Nat) (filters : List FilterModel)
    (cache : Finset Nat) (eid : Nat) :
    (((∀ f ∈ filters, eid ∈ f.enum) →
        cacherOnEntityCreated filters cache eid = insert eid cache)
    ∧ (filters ≠ [] → (∃ f ∈ filters, eid ∉ f.enum) →
        cacherOnEntityCreated filters cache eid = cache)
    ∧ cacherOnEntityRemoved cache eid = cache.erase eid
    ∧ (UnpackX eid ∈ matched →
        cacherOnIndexUpdated matched filters cache eid
          = if ∀ f ∈ filters, eid ∈ f.enum then insert eid cache else cache.erase eid)) := by
  refine ⟨?_, ?_, rfl, ?_⟩
  · intro hall
    unfold cacherOnEntityCreated
    rw [if_neg ?_]
    rintro ⟨-, hfail⟩
    rw [← testFilters_iff filters eid] at hall
    rw [hall] at hfail
    simp at hfail
  · intro hne hfail
    unfold cacherOnEntityCreated
    rw [if_pos ?_]
    constructor
    · simpa [List.length_eq_zero] using hne
    · rcases hfail with ⟨f, hf, hmem⟩
      cases htest : testFiltersSingleEntityId filters eid
      · rfl
      · exact absurd ((testFilters_iff filters eid).mp htest f hf) hmem
  · intro hmatched
    unfold cacherOnIndexUpdated
    rw [if_neg (by simpa using hmatched)]
    by_cases hall : ∀ f ∈ filters, eid ∈ f.enum
    · rw [if_pos ((testFilters_iff filters eid).mpr hall), if_pos hall]
    · rw [if_neg ?_, if_neg hall]
      intro htest
      exact hall ((testFilters_iff filters eid).mp htest)

theorem cacher_maintenance_witness :
    (let filters : List FilterModel := [⟨0, [5, 9]⟩, ⟨1, [5]⟩]
     (∀ f ∈ filters, (5 : Nat) ∈ f.enum)
       ∧ UnpackX 5 ∈ ({0} : Finset Nat)
       ∧ cacherOnEntityCreated filters {9} 5 = insert 5 {9}
       ∧ cacherOnEntityRemoved {9} 5 = Finset.erase {9} 5
       ∧ cacherOnIndexUpdated {0} filters {9} 5
           = if ∀ f ∈ filters, (5 : Nat) ∈ f.enum then insert 5 {9} else Finset.erase {9} 5) := by
  have h := cacher_maintenance {0} [⟨0, [5, 9]⟩, ⟨1, [5]⟩] {9} 5
  exact ⟨by decide, by decide, h.1 (by decide), h.2.2.1, h.2.2.2 (by decide)⟩

/-- C9: assignment through a field proxy: unbound → `UnboundFieldIndex`
error; bound with `end()` iterator → silently accepted, proxy and index
untouched; otherwise the new value is stored, the index entry is
re-keyed preserving the entity id, the new iterator is stored and the
update listeners are notified for that entity. -/
theorem field_proxy_set_spec {V : Type} [DecidableEq V] (p : FieldProxyS V)
    (idx : FieldIndexState V) (v : V) :
    ((p.bound = false → p.Set idx v = .error .UnboundFieldIndex)
    ∧ (p.bound = true → p.it = none → p.Set idx v = .ok (p, idx, []))
    ∧ (∀ it0, p.bound = true → p.it = some it0 →
        p.Set idx v
          = .ok (⟨v, true, some (v, it0.2)⟩, ⟨(v, it0.2) ::ₘ idx.m.erase it0⟩, [it0.2]))) := by
  refine ⟨?_, ?_, ?_⟩
  · intro hb
    unfold FieldProxyS.Set
    rw [if_pos hb]
  · intro hb hit
    unfold FieldProxyS.Set
    rw [if_neg (by simp [hb]), hit]
  · intro it0 hb hit
    unfold FieldProxyS.Set
    rw [if_neg (by simp [hb]), hit]
    unfold FieldIndexState.Update
    obtain ⟨pv, pb, pit⟩ := p
    simp only at hb hit
    subst hb hit
    rfl

theorem field_proxy_set_spec_witness :
    (let p : FieldProxyS Nat := ⟨10, true, some (10, 7)⟩
     let idx : FieldIndexState Nat := ⟨{(10, 7), (3, 4)}⟩
     p.bound = true ∧ p.it = some (10, 7)
       ∧ p.Set idx 25
           = .ok (⟨25, true, some (25, 7)⟩, ⟨(25, 7) ::ₘ Multiset.erase {(10, 7), (3, 4)} (10, 7)⟩, [7])) := by
  have h := field_proxy_set_spec (⟨10, true, some (10, 7)⟩ : FieldProxyS Nat) ⟨{(10, 7), (3, 4)}⟩ 25
  exact ⟨rfl, rfl, h.2.2 (10, 7) rfl rfl⟩

end TinyECS

